import Mathlib

/-!
Verification development for the sign-language video administration service
(`voice_server.py`, `populate_database.py`, `push_dataset_to_s3.py`).

Python strings are modelled as Lean `String`s; the Python string methods the
code uses (`strip`, `lower`, `upper`, `replace`, `split`, `endswith`,
`startswith`, `isalnum`) are given explicit executable models below, working
over `String.data : List Char`.  Case mapping and character classification are
modelled at ASCII precision (`Char.toLower`, `Char.isAlphanum`, ...), which is
exact for the ASCII data these scripts handle.

Python dictionaries are modelled as association lists with unique keys
(`dinsert` replaces the binding of an existing key in place and appends new
keys at the end, matching CPython's insertion-ordered dict semantics).

The S3 object store is modelled as a list of objects (`List S3Obj`), listing
being the list itself; `copy_object` / `delete_object` / `upload_file` are
modelled as pure list transformations.  External effects that the code merely
consumes (object timestamps, probed video metadata, upload success, speech
transcription) enter the model as explicit inputs.
-/

/-- Python `s.strip()`: drop whitespace from both ends. -/
def py_strip (s : String) : String :=
  ⟨((s.data.dropWhile Char.isWhitespace).reverse.dropWhile Char.isWhitespace).reverse⟩

/-- Python `s.lower()` (ASCII case mapping). -/
def py_lower (s : String) : String :=
  ⟨s.data.map Char.toLower⟩

/-- Python `s.upper()` (ASCII case mapping). -/
def py_upper (s : String) : String :=
  ⟨s.data.map Char.toUpper⟩

/-- Python `s.replace(a, b)` for single-character `a`, `b`. -/
def py_replace_char (a b : Char) (s : String) : String :=
  ⟨s.data.map (fun c => if c = a then b else c)⟩

/-- Leftmost, non-overlapping replacement of a nonempty pattern, fuelled so the
recursion is structural; the wrapper supplies enough fuel for the whole input. -/
def replace_all_fuel (pat repl : List Char) : Nat → List Char → List Char
  | 0, s => s
  | _ + 1, [] => []
  | fuel + 1, c :: rest =>
    if pat ≠ [] ∧ (c :: rest).take pat.length = pat then
      repl ++ replace_all_fuel pat repl fuel ((c :: rest).drop pat.length)
    else
      c :: replace_all_fuel pat repl fuel rest

/-- Python `s.replace(pat, repl)` for nonempty `pat`
(the code only replaces `".mp4"`, which is nonempty). -/
def py_replace (s pat repl : String) : String :=
  ⟨replace_all_fuel pat.data repl.data s.data.length s.data⟩

/-- Python `s.split(sep)` for a single-character separator. -/
def split_char (sep : Char) : List Char → List (List Char)
  | [] => [[]]
  | c :: rest =>
    match split_char sep rest with
    | [] => [[]]
    | g :: gs => if c = sep then [] :: g :: gs else (c :: g) :: gs

/-- Python `s.split(sep)` on `String`s, single-character separator. -/
def py_split (sep : Char) (s : String) : List String :=
  (split_char sep s.data).map (fun l => ⟨l⟩)

/-- Python `s.endswith(suffix)`. -/
def ends_with (s suf : String) : Bool :=
  decide (suf.data.length ≤ s.data.length) &&
    s.data.drop (s.data.length - suf.data.length) == suf.data

/-- Python `s.startswith(pre)`. -/
def starts_with (s pre : String) : Bool :=
  s.data.take pre.data.length == pre.data

/-- Python `key.split('/')[-1]`. -/
def last_segment (key : String) : String :=
  (py_split '/' key).getLastD ""

/-- Python dict lookup (`d[k]` / `k in d`) on an association list. -/
def dlookup {α : Type} : List (String × α) → String → Option α
  | [], _ => none
  | p :: rest, k => if p.1 = k then some p.2 else dlookup rest k

/-- Python dict assignment `d[k] = v`: replace the binding of an existing key
in place, otherwise append at the end (CPython insertion order). -/
def dinsert {α : Type} : List (String × α) → String → α → List (String × α)
  | [], k, v => [(k, v)]
  | p :: rest, k, v => if p.1 = k then (k, v) :: rest else p :: dinsert rest k v

-- Sanity checks on the string models.
example : py_strip "  a b  " = "a b" := by decide
example : py_lower "A_b C" = "a_b c" := by decide
example : py_replace "a.mp4.mp4" ".mp4" "" = "a" := by decide
example : py_split '/' "pending/a.mp4" = ["pending", "a.mp4"] := by decide
example : py_split '/' "a" = ["a"] := by decide
example : last_segment "pending/x/a.mp4" = "a.mp4" := by decide
example : ends_with "pending/a.mp4" ".mp4" = true := by decide
example : starts_with "pending/a.mp4" "pending/" = true := by decide
example : py_split '.' "a.mp4" = ["a", "mp4"] := by decide
example : py_split '.' ".mp4" = ["", "mp4"] := by decide

/-! ## The S3 object-store model and the index refresh (`voice_server.py`) -/

/-- `S3_BUCKET_NAME` default from `voice_server.py`. -/
def BUCKET_NAME : String := "echosignuobs"

/-- `AWS_DEFAULT_REGION` default from `voice_server.py`. -/
def AWS_REGION : String := "eu-north-1"

/-- `get_public_url` from `voice_server.py`. -/
def get_public_url (key : String) : String :=
  "https://" ++ BUCKET_NAME ++ ".s3." ++ AWS_REGION ++ ".amazonaws.com/" ++ key

/-- A stored S3 object as seen by the code: its key, its bytes, and the listing
metadata (`LastModified` already rendered with `"%Y-%m-%d %H:%M"`, `Size` in
bytes). -/
structure S3Obj where
  key : String
  body : List Nat
  lastModified : String
  size : Nat
deriving DecidableEq, Repr

/-- An entry of the approved index `video_index` (`index_s3_files`). -/
structure VideoEntry where
  word : String
  key : String
  url : String
  type : String
deriving DecidableEq, Repr

/-- An entry of the pending index `pending_index` (`index_s3_files` /
`mobile_upload`). -/
structure PendingEntry where
  key : String
  filename : String
  url : String
  date : String
  size : String
deriving DecidableEq, Repr

/-- The `"size"` field of a pending entry:
`f"{round(obj['Size']/1024, 1)} KB"`, modelled with exact decimal
round-half-to-even in place of Python's float rounding. -/
def format_size_kb (size : Nat) : String :=
  let t := size * 10
  let q := t / 1024
  let r := t % 1024
  let tenths :=
    if 1024 < 2 * r then q + 1
    else if 2 * r < 1024 then q
    else if q % 2 = 0 then q else q + 1
  toString (tenths / 10) ++ "." ++ toString (tenths % 10) ++ " KB"

/-- The pending-index entry built for a `pending/` key in `index_s3_files`. -/
def mk_pending_entry (obj : S3Obj) : PendingEntry :=
  { key := obj.key
    filename := last_segment obj.key
    url := get_public_url obj.key
    date := obj.lastModified
    size := format_size_kb obj.size }

/-- The word an approved key is indexed under:
`filename.replace('.mp4', '').lower().replace('_', ' ').strip()`. -/
def derived_word (key : String) : String :=
  py_strip (py_replace_char '_' ' ' (py_lower (py_replace (last_segment key) ".mp4" "")))

/-- The approved-index entry built for a non-`pending/` key in
`index_s3_files`. -/
def mk_video_entry (word : String) (obj : S3Obj) : VideoEntry :=
  { word := word
    key := obj.key
    url := get_public_url obj.key
    type := if 1 < word.length then "word" else "letter" }

/-- One iteration of the listing loop in `index_s3_files`, acting on the local
accumulators `(v_idx, p_idx)`. -/
def index_step (acc : List (String × VideoEntry) × List (String × PendingEntry))
    (obj : S3Obj) : List (String × VideoEntry) × List (String × PendingEntry) :=
  if ¬ ends_with obj.key ".mp4" then acc
  else if starts_with obj.key "pending/" then
    (acc.1, dinsert acc.2 obj.key (mk_pending_entry obj))
  else
    let word := derived_word obj.key
    if word ≠ "" then (dinsert acc.1 word (mk_video_entry word obj), acc.2)
    else acc

/-- `index_s3_files`: rebuild `(video_index, pending_index)` from the listed
objects, starting from empty local accumulators. -/
def index_s3_files (objs : List S3Obj) :
    List (String × VideoEntry) × List (String × PendingEntry) :=
  objs.foldl index_step ([], [])

/-- The whole `index_s3_files` body including its `try`/`except`: when listing
or processing raises (`Except.error`), the global indices keep their previous
values; on success they are replaced wholesale by the freshly built maps. -/
def refresh_indices (listing : Except String (List S3Obj))
    (old_video : List (String × VideoEntry))
    (old_pending : List (String × PendingEntry)) :
    List (String × VideoEntry) × List (String × PendingEntry) :=
  match listing with
  | .error _ => (old_video, old_pending)
  | .ok objs => index_s3_files objs

/-! ## S3 operations and the FastAPI handlers (`voice_server.py`) -/

/-- `HEAD`/lookup of a key in the store: the first object with that key. -/
def s3_lookup : List S3Obj → String → Option S3Obj
  | [], _ => none
  | o :: rest, k => if o.key = k then some o else s3_lookup rest k

/-- `s3_client.delete_object`: remove every object stored under the key
(deleting a missing key is a no-op, as in S3). -/
def s3_delete_object : List S3Obj → String → List S3Obj
  | [], _ => []
  | o :: rest, k =>
    if o.key = k then s3_delete_object rest k else o :: s3_delete_object rest k

/-- `s3_client.upload_file` / an overwriting `PUT` of one object. -/
def s3_put (store : List S3Obj) (o : S3Obj) : List S3Obj :=
  s3_delete_object store o.key ++ [o]

/-- `s3_client.copy_object`: copying a missing source key raises (`error`),
otherwise the destination key is overwritten with a copy of the source. -/
def s3_copy_object (store : List S3Obj) (src dst : String) :
    Except String (List S3Obj) :=
  match s3_lookup store src with
  | none => .error "NoSuchKey"
  | some o => .ok (s3_delete_object store dst ++ [{ o with key := dst }])

/-- The in-process server state: the object store plus the two in-memory
indices. -/
structure ServerState where
  store : List S3Obj
  video_index : List (String × VideoEntry)
  pending_index : List (String × PendingEntry)
deriving DecidableEq, Repr

/-- Calling `index_s3_files()` on the live state: rebuild both indices from
the current store listing. -/
def reindex (st : ServerState) : ServerState :=
  let I := index_s3_files st.store
  { st with video_index := I.1, pending_index := I.2 }

/-- The responses the modelled handlers can produce. -/
inductive ActionResult where
  | redirectLogin
  | redirectAdmin
  | redirectAdminError (msg : String)
  | httpError (code : Nat) (detail : String)
  | jsonOk (message stat : String)
deriving DecidableEq, Repr

/-- `check_duplicate` from `voice_server.py`. -/
def check_duplicate (video_index : List (String × VideoEntry))
    (pending_index : List (String × PendingEntry)) (name : String) :
    Option String :=
  let base_name := py_replace_char ' ' '_' (py_lower (py_strip name))
  let search_word := py_replace_char '_' ' ' base_name
  if (dlookup video_index search_word).isSome then
    some ("Video \x27" ++ search_word ++ "\x27 already exists in Approved.")
  else if pending_index.any (fun p => ends_with p.1 ("/" ++ base_name ++ ".mp4")) then
    some ("Video \x27" ++ search_word ++ "\x27 is already in Pending.")
  else none

/-- The name normalisation shared verbatim by `admin_upload`, `admin_edit` and
`mobile_upload`:
`name.strip().lower().replace(' ', '_')` followed by
`''.join(c for c in clean_name if c.isalnum() or c == '_')`. -/
def sanitize_name (name : String) : String :=
  let clean_name := py_replace_char ' ' '_' (py_lower (py_strip name))
  ⟨clean_name.data.filter (fun c => c.isAlphanum || c == '_')⟩

/-- `admin_action` (`POST /admin/action`): `approve` copies the pending object
to its bare filename and deletes the pending key, `reject` only deletes; both
then rebuild the indices from the store listing.  A failing S3 call lands in
the `except` branch: the state is untouched and an error redirect returned. -/
def admin_action (st : ServerState) (authed s3_available : Bool)
    (key action : String) : ServerState × ActionResult :=
  if ¬ authed then (st, .redirectLogin)
  else if ¬ s3_available then (st, .httpError 500 "S3 Offline")
  else if action = "approve" then
    let filename := last_segment key
    match s3_copy_object st.store key filename with
    | .error e => (st, .redirectAdminError e)
    | .ok store1 =>
      let store2 := s3_delete_object store1 key
      (reindex { st with store := store2 }, .redirectAdmin)
  else if action = "reject" then
    let store2 := s3_delete_object st.store key
    (reindex { st with store := store2 }, .redirectAdmin)
  else
    (reindex st, .redirectAdmin)

/-- `mobile_upload` (`POST /upload`): duplicate names fail with HTTP 400 before
any store write; otherwise the file is uploaded under
`pending/<sanitised name>.mp4` and the pending index is extended in place
(`now` is the rendered upload timestamp, `content` the uploaded bytes). -/
def mobile_upload (st : ServerState) (s3_available : Bool) (name : String)
    (content : List Nat) (now : String) : ServerState × ActionResult :=
  if ¬ s3_available then (st, .httpError 500 "S3 Offline")
  else
    match check_duplicate st.video_index st.pending_index name with
    | some err => (st, .httpError 400 err)
    | none =>
      let clean_name := sanitize_name name
      let filename := clean_name ++ ".mp4"
      let key := "pending/" ++ filename
      let store2 := s3_put st.store
        { key := key, body := content, lastModified := now, size := content.length }
      let pending2 := dinsert st.pending_index key
        { key := key, filename := filename, url := get_public_url key
          date := now, size := "New" }
      ({ st with store := store2, pending_index := pending2 },
       .jsonOk "Video uploaded for review!" "pending")

/-! ## The translate endpoint's video lookup (`voice_server.py`) -/

/-- The inner `for char in word` loop body of `translate`: an indexed
character appends a copy of its entry with `type` set to `"letter"` and `word`
set to the uppercased character; other characters leave the list alone. -/
def letter_fallback (video_index : List (String × VideoEntry))
    (vs : List VideoEntry) (ch : Char) : List VideoEntry :=
  match dlookup video_index (String.singleton ch) with
  | some v =>
    vs ++ [{ v with type := "letter", word := py_upper (String.singleton ch) }]
  | none => vs

/-- The outer `for word in lower_words` loop body of `translate`: an indexed
word appends its entry, any other word runs the per-character fallback over the
same `videos` list. -/
def word_step (video_index : List (String × VideoEntry))
    (videos : List VideoEntry) (word : String) : List VideoEntry :=
  match dlookup video_index word with
  | some e => videos ++ [e]
  | none => word.data.foldl (letter_fallback video_index) videos

/-- The video-building part of `translate`, starting from the tokenised
keywords: `lower_words = [w.lower() for w in keywords]`, then the loop over
`lower_words` appending into one `videos` list that starts empty. -/
def translate_videos (video_index : List (String × VideoEntry))
    (keywords : List String) : List VideoEntry :=
  let lower_words := keywords.map py_lower
  lower_words.foldl (word_step video_index) []

/-- Restatement of the claimed per-word shape of the translate output, written
from the spec sentence, for an already-lowercased word: a found word
contributes its entry, a missing word contributes one letter entry per indexed
character, in order, absent characters contributing nothing. -/
def per_lower_word (video_index : List (String × VideoEntry)) (word : String) :
    List VideoEntry :=
  match dlookup video_index word with
  | some e => [e]
  | none =>
    word.data.filterMap (fun ch =>
      (dlookup video_index (String.singleton ch)).map
        (fun v => { v with type := "letter", word := py_upper (String.singleton ch) }))

/-- The claimed contribution of one tokenised input word: its lowercased form
looked up as in `per_lower_word`. -/
def per_word_videos (video_index : List (String × VideoEntry)) (kw : String) :
    List VideoEntry :=
  per_lower_word video_index (py_lower kw)

/-! ## The dataset-push script (`push_dataset_to_s3.py`) -/

/-- `PurePath.stem`: the final component without its suffix; a dot in first
position (or a name without an internal dot) yields no suffix. -/
def path_stem (name : String) : String :=
  let idxs := (List.range name.data.length).filter
    (fun i => name.data.getD i ' ' = '.')
  match idxs.getLast? with
  | some i => if 0 < i ∧ i < name.data.length - 1 then ⟨name.data.take i⟩ else name
  | none => name

example : path_stem "hello.mp4" = "hello" := by decide
example : path_stem ".mp4" = ".mp4" := by decide
example : path_stem "a.tar.gz" = "a.tar" := by decide
example : path_stem "a." = "a." := by decide

/-- One `.mp4` file under the root folder as `push_dataset` sees it:
its path components relative to the root, whether the S3 upload step yielded a
URL (`upload_file` wraps network I/O), and the metadata probed by
`video_metadata` (cv2; the float duration is carried as an exact rational). -/
structure PushFile where
  parts : List String
  upload_ok : Bool
  duration : Option Rat
  resolution : Option String
deriving DecidableEq, Repr

/-- `language = parts[0].upper() if len(parts) > 1 else "PSL"`. -/
def push_language (parts : List String) : String :=
  if 1 < parts.length then py_upper (parts.headD "") else "PSL"

/-- `word = file_path.stem.lower()`. -/
def push_word (parts : List String) : String :=
  py_lower (path_stem (parts.getLastD ""))

/-- A document of the `sign_videos.videos` MongoDB collection as built by
`push_dataset` (it has no update-timestamp field). -/
structure MongoDoc where
  word : String
  language : String
  file_path : String
  type : String
  duration : Option Rat
  resolution : Option String
deriving DecidableEq, Repr

/-- The URL `upload_file` returns for `key = f"{language}/{word}.mp4"`. -/
def push_url (language word : String) : String :=
  "https://" ++ BUCKET_NAME ++ ".s3.amazonaws.com/" ++ language ++ "/" ++ word ++ ".mp4"

/-- The `doc` dict literal built in `push_dataset`. -/
def mk_push_doc (f : PushFile) : MongoDoc :=
  let language := push_language f.parts
  let word := push_word f.parts
  { word := word
    language := language
    file_path := push_url language word
    type := if 1 < word.length then "word" else "letter"
    duration := f.duration
    resolution := f.resolution }

/-- `collection.find_one({"word": w, "language": l})`. -/
def mongo_find_one (coll : List MongoDoc) (w l : String) : Option MongoDoc :=
  coll.find? (fun d => d.word == w && d.language == l)

/-- `ReplaceOne({"word": w, "language": l}, doc, upsert=True)` executed on a
collection: replace the first matching document, or insert `doc` when none
matches. -/
def mongo_replace_one_upsert : List MongoDoc → String → String → MongoDoc → List MongoDoc
  | [], _, _, doc => [doc]
  | d :: rest, w, l, doc =>
    if d.word == w && d.language == l then doc :: rest
    else d :: mongo_replace_one_upsert rest w l doc

/-- The `mongo_ops` list collected by `push_dataset`'s file loop: files whose
upload failed are skipped, files whose `(word, language)` is already in the
initial collection are skipped (`find_one` queries the unmodified collection),
every other file contributes one `ReplaceOne` of its document. -/
def push_ops (coll : List MongoDoc) (files : List PushFile) : List MongoDoc :=
  files.filterMap (fun f =>
    if !f.upload_ok then none
    else if (mongo_find_one coll (push_word f.parts) (push_language f.parts)).isSome then none
    else some (mk_push_doc f))

/-- `collection.bulk_write(mongo_ops)`: the `ReplaceOne` operations applied in
order. -/
def mongo_bulk_write (coll : List MongoDoc) (ops : List MongoDoc) : List MongoDoc :=
  ops.foldl (fun c doc => mongo_replace_one_upsert c doc.word doc.language doc) coll

/-- The MongoDB effect of one `push_dataset` run over `files` on an initial
collection `coll`. -/
def push_dataset_mongo (coll : List MongoDoc) (files : List PushFile) : List MongoDoc :=
  mongo_bulk_write coll (push_ops coll files)

/-! ## The SQLite populator (`populate_database.py`) -/

/-- A row of the `videos` table as written by `populate_database`. -/
structure SqlRow where
  word : String
  language : String
  file_path : String
  type : String
  duration : Option Rat
  resolution : Option String
  updated_at : String
deriving DecidableEq, Repr

/-- One `.mp4` file of one `(language, video_dir)` pair, with the metadata
probed by `VideoFileClip` (external; `None` on probe failure). -/
structure LocalVideoFile where
  language : String
  filename : String
  duration : Option Rat
  resolution : Option String
deriving DecidableEq, Repr

/-- `word = filename.split('.')[0].lower()`. -/
def pop_word (filename : String) : String :=
  py_lower ((py_split '.' filename).headD "")

/-- The row bound to the `INSERT OR REPLACE` placeholders
(`now` models `CURRENT_TIMESTAMP`). -/
def populate_row (now : String) (f : LocalVideoFile) : SqlRow :=
  let word := pop_word f.filename
  { word := word
    language := f.language
    file_path := "/videos/" ++ f.language ++ "/" ++ f.filename
    type := if 1 < word.length then "word" else "letter"
    duration := f.duration
    resolution := f.resolution
    updated_at := now }

/-- Modelled from the spec: the `CREATE TABLE` for `videos` is not in `src/`
(only the populator's `INSERT OR REPLACE` is), so per the spec's
"word+language uniquely identifies a record" the conflict key is
`(word, language)`: `INSERT OR REPLACE` drops any row with the same key and
inserts the new one. -/
def sqlite_insert_or_replace (t : List SqlRow) (r : SqlRow) : List SqlRow :=
  t.filter (fun x => !(x.word == r.word && x.language == r.language)) ++ [r]

/-- `populate_database`'s file loop, the per-language directory walks flattened
into one list of files each tagged with its language: non-`.mp4` names are
skipped, every other file is inserted with `INSERT OR REPLACE`. -/
def populate_database (t : List SqlRow) (now : String)
    (files : List LocalVideoFile) : List SqlRow :=
  files.foldl (fun acc f =>
    if ends_with f.filename ".mp4" then sqlite_insert_or_replace acc (populate_row now f)
    else acc) t

/-! ## Field lists of the two writers, and the Mongo connection retry -/

/-- A database value as it appears in the written records. -/
inductive DbValue where
  | str (s : String)
  | rat (q : Rat)
  | null
deriving DecidableEq, Repr

/-- `Option` metadata rendered as a nullable column value. -/
def opt_rat_value : Option Rat → DbValue
  | some q => .rat q
  | none => .null

/-- `Option` metadata rendered as a nullable column value. -/
def opt_str_value : Option String → DbValue
  | some s => .str s
  | none => .null

/-- The column/value list of the populator's
`INSERT OR REPLACE INTO videos (word, language, file_path, type, duration,
resolution, updated_at)`. -/
def sql_insert_kv (r : SqlRow) : List (String × DbValue) :=
  [("word", .str r.word), ("language", .str r.language),
   ("file_path", .str r.file_path), ("type", .str r.type),
   ("duration", opt_rat_value r.duration),
   ("resolution", opt_str_value r.resolution),
   ("updated_at", .str r.updated_at)]

/-- The key/value list of the `doc` dict literal in `push_dataset`. -/
def mongo_doc_kv (d : MongoDoc) : List (String × DbValue) :=
  [("word", .str d.word), ("language", .str d.language),
   ("file_path", .str d.file_path), ("type", .str d.type),
   ("duration", opt_rat_value d.duration),
   ("resolution", opt_str_value d.resolution)]

/-- The spec's seven fields of a video record: word, language, storage path,
clip type, duration, resolution, update timestamp (written from the spec's
words, for comparison with the two writers). -/
def spec_record_fields : List String :=
  ["word", "language", "file_path", "type", "duration", "resolution", "updated_at"]

/-- `connect_mongo`'s `for attempt in range(1, 4)` loop over the remaining
attempt numbers: returns `(connected, attempts made, seconds waited)`; a
failure followed by another attempt (`attempt < 3`) waits 3 seconds. -/
def mongo_attempts (succeeds : Nat → Bool) : List Nat → Bool × Nat × Nat
  | [] => (false, 0, 0)
  | a :: rest =>
    if succeeds a then (true, 1, 0)
    else
      let r := mongo_attempts succeeds rest
      (r.1, r.2.1 + 1, r.2.2 + if rest.isEmpty then 0 else 3)

/-- `connect_mongo` from `push_dataset_to_s3.py`: immediately `True` when a
collection is already held, otherwise at most the attempts `1, 2, 3`
(`succeeds n` is whether the `n`-th `MongoClient` + `ping` succeeds, an
external outcome). -/
def connect_mongo (collection_held : Bool) (succeeds : Nat → Bool) :
    Bool × Nat × Nat :=
  if collection_held then (true, 0, 0)
  else mongo_attempts succeeds [1, 2, 3]

/-- `admin_upload`'s `clean_name` computation (source lines 265-266), identical
text to the other two handlers. -/
def admin_upload_clean_name (name : String) : String :=
  let clean_name := py_replace_char ' ' '_' (py_lower (py_strip name))
  ⟨clean_name.data.filter (fun c => c.isAlphanum || c == '_')⟩

/-- `admin_edit`'s `clean_name` computation (source lines 232-233), identical
text to the other two handlers. -/
def admin_edit_clean_name (name : String) : String :=
  let clean_name := py_replace_char ' ' '_' (py_lower (py_strip name))
  ⟨clean_name.data.filter (fun c => c.isAlphanum || c == '_')⟩

/-! ## Character-level lemmas for the name normalisation -/

theorem char_toNat_ofNat_valid (m : Nat) (h : m < 55296) : (Char.ofNat m).toNat = m := by
  have hv : m.isValidChar := Or.inl h
  simp [Char.ofNat, hv, Char.ofNatAux, Char.toNat, UInt32.toNat]

theorem toLower_not_upper (c : Char) :
    ¬(65 ≤ (Char.toLower c).toNat ∧ (Char.toLower c).toNat ≤ 90) := by
  unfold Char.toLower
  by_cases h : Char.toNat c ≥ 65 ∧ Char.toNat c ≤ 90
  · rw [if_pos h]
    rw [char_toNat_ofNat_valid (Char.toNat c + 32) (by omega)]
    omega
  · rw [if_neg h]
    omega

theorem toLower_fixed_of_not_upper (c : Char)
    (h : ¬(65 ≤ c.toNat ∧ c.toNat ≤ 90)) : Char.toLower c = c := by
  unfold Char.toLower
  rw [if_neg (by omega)]

theorem char_eq_iff_toNat (c d : Char) : c = d ↔ c.toNat = d.toNat :=
  ⟨fun h => h ▸ rfl, fun h => Char.ext (UInt32.toNat.inj h)⟩

theorem isLower_iff (c : Char) : c.isLower = true ↔ 97 ≤ c.toNat ∧ c.toNat ≤ 122 := by
  simp [Char.isLower, Char.toNat, UInt32.le_def, BitVec.le_def, UInt32.toNat]

theorem isUpper_iff (c : Char) : c.isUpper = true ↔ 65 ≤ c.toNat ∧ c.toNat ≤ 90 := by
  simp [Char.isUpper, Char.toNat, UInt32.le_def, BitVec.le_def, UInt32.toNat]

theorem isDigit_iff (c : Char) : c.isDigit = true ↔ 48 ≤ c.toNat ∧ c.toNat ≤ 57 := by
  simp [Char.isDigit, Char.toNat, UInt32.le_def, BitVec.le_def, UInt32.toNat]

/-- The characters a sanitised name can consist of: lowercase ASCII letters,
digits, and the underscore. -/
def good_char (c : Char) : Prop :=
  (97 ≤ c.toNat ∧ c.toNat ≤ 122) ∨ (48 ≤ c.toNat ∧ c.toNat ≤ 57) ∨ c.toNat = 95

theorem good_not_whitespace (c : Char) (h : good_char c) : c.isWhitespace = false := by
  unfold Char.isWhitespace
  simp only [Bool.or_eq_false_iff, decide_eq_false_iff_not]
  unfold good_char at h
  refine ⟨⟨⟨?_, ?_⟩, ?_⟩, ?_⟩ <;> intro he <;> rw [char_eq_iff_toNat] at he <;>
    simp only [show (' ' : Char).toNat = 32 from rfl, show ('\t' : Char).toNat = 9 from rfl,
      show ('\r' : Char).toNat = 13 from rfl, show ('\n' : Char).toNat = 10 from rfl] at he <;>
    omega

theorem good_toLower_fixed (c : Char) (h : good_char c) : Char.toLower c = c := by
  apply toLower_fixed_of_not_upper
  unfold good_char at h
  omega

theorem good_ne_space (c : Char) (h : good_char c) : c ≠ ' ' := by
  intro he
  rw [char_eq_iff_toNat] at he
  unfold good_char at h
  simp only [show (' ' : Char).toNat = 32 from rfl] at he
  omega

theorem good_pred_true (c : Char) (h : good_char c) : (c.isAlphanum || c == '_') = true := by
  rcases h with h | h | h
  · have : c.isLower = true := (isLower_iff c).mpr h
    simp [Char.isAlphanum, Char.isAlpha, this]
  · have : c.isDigit = true := (isDigit_iff c).mpr h
    simp [Char.isAlphanum, this]
  · have : c = '_' := (char_eq_iff_toNat c '_').mpr (by simpa using h)
    simp [this]

theorem sanitize_chars_good (s : String) (c : Char) (hc : c ∈ (sanitize_name s).data) :
    good_char c := by
  unfold sanitize_name py_replace_char py_lower at hc
  rw [List.mem_filter] at hc
  obtain ⟨hmem, hpred⟩ := hc
  rw [List.mem_map] at hmem
  obtain ⟨a, ha, hac⟩ := hmem
  rw [List.mem_map] at ha
  obtain ⟨b, _, hba⟩ := ha
  by_cases hsp : a = ' '
  · rw [if_pos hsp] at hac
    rw [← hac]
    exact Or.inr (Or.inr rfl)
  · rw [if_neg hsp] at hac
    subst hac
    subst hba
    rcases Bool.or_eq_true_iff.mp hpred with hal | hund
    · rcases Bool.or_eq_true_iff.mp hal with hab | hd
      · rcases Bool.or_eq_true_iff.mp hab with hu | hl
        · exact absurd ((isUpper_iff _).mp hu) (toLower_not_upper b)
        · exact Or.inl ((isLower_iff _).mp hl)
      · exact Or.inr (Or.inl ((isDigit_iff _).mp hd))
    · have h95 : Char.toLower b = '_' := by simpa using hund
      rw [char_eq_iff_toNat] at h95
      exact Or.inr (Or.inr h95)

theorem dropWhile_eq_self_of_none (p : Char → Bool) (l : List Char)
    (h : ∀ c ∈ l, p c = false) : l.dropWhile p = l := by
  cases l with
  | nil => rfl
  | cons a l => simp [List.dropWhile_cons, h a (List.mem_cons_self a l)]

theorem map_eq_self_of_fixed {f : Char → Char} {l : List Char}
    (h : ∀ c ∈ l, f c = c) : l.map f = l := by
  induction l with
  | nil => rfl
  | cons a l ih =>
    rw [List.map_cons, h a (List.mem_cons_self a l),
      ih (fun c hc => h c (List.mem_cons_of_mem a hc))]

theorem sanitize_fixed_of_good (t : String) (hg : ∀ c ∈ t.data, good_char c) :
    sanitize_name t = t := by
  have h1 : py_strip t = t := by
    unfold py_strip
    rw [dropWhile_eq_self_of_none _ _ (fun c hc => good_not_whitespace c (hg c hc))]
    rw [dropWhile_eq_self_of_none _ _
      (fun c hc => good_not_whitespace c (hg c (List.mem_reverse.mp hc)))]
    rw [List.reverse_reverse]
  have h2 : py_lower t = t := by
    unfold py_lower
    rw [map_eq_self_of_fixed (fun c hc => good_toLower_fixed c (hg c hc))]
  have h3 : py_replace_char ' ' '_' t = t := by
    unfold py_replace_char
    rw [map_eq_self_of_fixed (fun c hc => if_neg (good_ne_space c (hg c hc)))]
  have h4 : t.data.filter (fun c => c.isAlphanum || c == '_') = t.data :=
    List.filter_eq_self.mpr (fun c hc => good_pred_true c (hg c hc))
  unfold sanitize_name
  rw [h1, h2, h3]
  show ({ data := List.filter (fun c => c.isAlphanum || c == '_') t.data } : String) = t
  rw [h4]

/-! ## Dictionary and indexer lemmas -/

theorem dlookup_dinsert {α : Type} :
    ∀ (d : List (String × α)) (k : String) (v : α) (k2 : String),
      dlookup (dinsert d k v) k2 = if k2 = k then some v else dlookup d k2
  | [], k, v, k2 => by
    rcases eq_or_ne k2 k with h | h
    · subst h; simp [dinsert, dlookup]
    · simp [dinsert, dlookup, h, Ne.symm h]
  | (pk, pv) :: rest, k, v, k2 => by
    rcases eq_or_ne pk k with h | h
    · subst h
      rcases eq_or_ne k2 pk with h2 | h2
      · subst h2; simp [dinsert, dlookup]
      · simp [dinsert, dlookup, h2, Ne.symm h2]
    · rcases eq_or_ne pk k2 with h2 | h2
      · subst h2
        simp [dinsert, dlookup, h, Ne.symm h]
      · simp [dinsert, dlookup, h, h2, dlookup_dinsert rest k v k2]

/-- The objects whose listing entry lands in the pending index under key `k`. -/
def is_pending_obj (k : String) (o : S3Obj) : Bool :=
  o.key == k && ends_with o.key ".mp4" && starts_with o.key "pending/"

/-- The objects whose listing entry lands in the approved index under word `w`. -/
def is_video_obj (w : String) (o : S3Obj) : Bool :=
  ends_with o.key ".mp4" && !(starts_with o.key "pending/") &&
    !(derived_word o.key == "") && derived_word o.key == w

theorem dlookup_index_step_pending (acc : List (String × VideoEntry) × List (String × PendingEntry))
    (obj : S3Obj) (k : String) :
    dlookup (index_step acc obj).2 k =
      if is_pending_obj k obj then some (mk_pending_entry obj)
      else dlookup acc.2 k := by
  unfold index_step is_pending_obj
  cases h1 : ends_with obj.key ".mp4" with
  | false => simp [h1]
  | true =>
    cases h2 : starts_with obj.key "pending/" with
    | false => by_cases h3 : derived_word obj.key = "" <;> simp [h1, h2, h3]
    | true =>
      by_cases hk : obj.key = k
      · subst hk; simp [h1, h2, dlookup_dinsert]
      · simp [h1, h2, dlookup_dinsert, hk, Ne.symm hk]

theorem dlookup_index_step_video (acc : List (String × VideoEntry) × List (String × PendingEntry))
    (obj : S3Obj) (w : String) :
    dlookup (index_step acc obj).1 w =
      if is_video_obj w obj then some (mk_video_entry w obj)
      else dlookup acc.1 w := by
  unfold index_step is_video_obj
  cases h1 : ends_with obj.key ".mp4" with
  | false => simp [h1]
  | true =>
    cases h2 : starts_with obj.key "pending/" with
    | true => simp [h1, h2]
    | false =>
      by_cases h3 : derived_word obj.key = ""
      · simp [h1, h2, h3]
      · by_cases hw : derived_word obj.key = w
        · subst hw; simp [h1, h2, h3, dlookup_dinsert]
        · simp [h1, h2, h3, dlookup_dinsert, hw, Ne.symm hw]

theorem dlookup_foldl_pending (objs : List S3Obj)
    (acc : List (String × VideoEntry) × List (String × PendingEntry)) (k : String) :
    dlookup (objs.foldl index_step acc).2 k =
      match objs.reverse.find? (is_pending_obj k) with
      | some o => some (mk_pending_entry o)
      | none => dlookup acc.2 k := by
  induction objs generalizing acc with
  | nil => simp
  | cons o rest ih =>
    simp only [List.foldl_cons, List.reverse_cons, List.find?_append]
    rw [ih]
    cases hfind : rest.reverse.find? (is_pending_obj k) with
    | some o2 => simp
    | none =>
      simp only [Option.none_or]
      rw [dlookup_index_step_pending]
      cases hp : is_pending_obj k o <;> simp [List.find?, hp]

theorem s3_lookup_append (store : List S3Obj) (o : S3Obj) (k2 : String) :
    s3_lookup (store ++ [o]) k2 =
      match s3_lookup store k2 with
      | some x => some x
      | none => if o.key = k2 then some o else none := by
  induction store with
  | nil => simp [s3_lookup]
  | cons p rest ih => by_cases h : p.key = k2 <;> simp [s3_lookup, h, ih]

theorem s3_lookup_delete :
    ∀ (store : List S3Obj) (k k2 : String),
      s3_lookup (s3_delete_object store k) k2 =
        if k2 = k then none else s3_lookup store k2
  | [], k, k2 => by by_cases h : k2 = k <;> simp [s3_lookup, s3_delete_object, h]
  | o :: rest, k, k2 => by
    have ih := s3_lookup_delete rest k k2
    by_cases ho : o.key = k
    · by_cases h2 : k2 = k
      · subst h2
        simp [s3_delete_object, ho, ih]
      · simp [s3_delete_object, ho, s3_lookup, ih, h2]
        rw [if_neg (fun hh => h2 hh.symm)]
    · by_cases h2 : o.key = k2
      · subst h2
        simp [s3_delete_object, ho, s3_lookup]
      · simp [s3_delete_object, ho, s3_lookup, h2, ih]

theorem letter_fallback_foldl (idx : List (String × VideoEntry)) (chars : List Char)
    (acc : List VideoEntry) :
    chars.foldl (letter_fallback idx) acc =
      acc ++ chars.filterMap (fun ch =>
        (dlookup idx (String.singleton ch)).map
          (fun v => { v with type := "letter", word := py_upper (String.singleton ch) })) := by
  induction chars generalizing acc with
  | nil => simp
  | cons ch rest ih =>
    rw [List.foldl_cons, ih, List.filterMap_cons]
    unfold letter_fallback
    cases dlookup idx (String.singleton ch) <;> simp

theorem word_step_foldl (idx : List (String × VideoEntry)) (ws : List String)
    (acc : List VideoEntry) :
    ws.foldl (word_step idx) acc = acc ++ (ws.map (per_lower_word idx)).flatten := by
  induction ws generalizing acc with
  | nil => simp
  | cons w rest ih =>
    rw [List.foldl_cons, ih, List.map_cons, List.flatten_cons]
    unfold word_step per_lower_word
    cases dlookup idx w
    · rw [letter_fallback_foldl]
      simp
    · simp

/-- The invariant of the document collection: `(word, language)` identifies at
most one document. -/
def mongo_key_unique (coll : List MongoDoc) : Prop :=
  coll.Pairwise (fun a b => ¬(a.word = b.word ∧ a.language = b.language))

/-- The invariant of the `videos` table: `(word, language)` identifies at most
one row. -/
def sql_key_unique (t : List SqlRow) : Prop :=
  t.Pairwise (fun a b => ¬(a.word = b.word ∧ a.language = b.language))

theorem mem_replace_one_upsert :
    ∀ (coll : List MongoDoc) (w l : String) (doc x : MongoDoc),
      x ∈ mongo_replace_one_upsert coll w l doc → x ∈ coll ∨ x = doc
  | [], w, l, doc, x => by
    simp [mongo_replace_one_upsert]
  | d :: rest, w, l, doc, x => by
    unfold mongo_replace_one_upsert
    by_cases hm : (d.word == w && d.language == l) = true
    · rw [if_pos hm]
      intro hx
      rcases List.mem_cons.mp hx with h | h
      · exact Or.inr h
      · exact Or.inl (List.mem_cons_of_mem d h)
    · rw [if_neg hm]
      intro hx
      rcases List.mem_cons.mp hx with h | h
      · exact Or.inl (h ▸ List.mem_cons_self d rest)
      · rcases mem_replace_one_upsert rest w l doc x h with h2 | h2
        · exact Or.inl (List.mem_cons_of_mem d h2)
        · exact Or.inr h2

theorem replace_one_upsert_unique :
    ∀ (coll : List MongoDoc) (doc : MongoDoc),
      mongo_key_unique coll →
      mongo_key_unique (mongo_replace_one_upsert coll doc.word doc.language doc)
  | [], doc, _ => by
    simp [mongo_replace_one_upsert, mongo_key_unique]
  | d :: rest, doc, h => by
    unfold mongo_key_unique at h
    rw [List.pairwise_cons] at h
    obtain ⟨hd, hrest⟩ := h
    unfold mongo_replace_one_upsert
    by_cases hm : (d.word == doc.word && d.language == doc.language) = true
    · rw [if_pos hm]
      rw [Bool.and_eq_true, beq_iff_eq, beq_iff_eq] at hm
      unfold mongo_key_unique
      rw [List.pairwise_cons]
      refine ⟨fun b hb hc => hd b hb ⟨hm.1.trans hc.1, hm.2.trans hc.2⟩, hrest⟩
    · rw [if_neg hm]
      rw [Bool.and_eq_true, beq_iff_eq, beq_iff_eq] at hm
      unfold mongo_key_unique
      rw [List.pairwise_cons]
      constructor
      · intro b hb
        rcases mem_replace_one_upsert rest doc.word doc.language doc b hb with h2 | h2
        · exact hd b h2
        · subst h2
          exact fun hc => hm ⟨hc.1, hc.2⟩
      · exact replace_one_upsert_unique rest doc hrest

theorem bulk_write_unique (ops : List MongoDoc) :
    ∀ coll, mongo_key_unique coll → mongo_key_unique (mongo_bulk_write coll ops) := by
  induction ops with
  | nil => exact fun _ h => h
  | cons doc rest ih =>
    intro coll h
    exact ih _ (replace_one_upsert_unique coll doc h)

theorem insert_or_replace_unique (t : List SqlRow) (r : SqlRow)
    (h : sql_key_unique t) : sql_key_unique (sqlite_insert_or_replace t r) := by
  unfold sqlite_insert_or_replace sql_key_unique
  rw [List.pairwise_append]
  refine ⟨h.sublist (List.filter_sublist _), by simp, ?_⟩
  intro a ha b hb
  rw [List.mem_filter] at ha
  rw [List.mem_singleton] at hb
  subst hb
  have h2 := ha.2
  intro hc
  simp [hc.1, hc.2] at h2

theorem populate_database_unique (files : List LocalVideoFile) (now : String) :
    ∀ t, sql_key_unique t → sql_key_unique (populate_database t now files) := by
  induction files with
  | nil => exact fun _ h => h
  | cons f rest ih =>
    intro t h
    have hstep : populate_database t now (f :: rest) =
        populate_database
          (if ends_with f.filename ".mp4" then
            sqlite_insert_or_replace t (populate_row now f) else t) now rest := rfl
    by_cases he : ends_with f.filename ".mp4" = true
    · rw [hstep, if_pos he]
      exact ih _ (insert_or_replace_unique t (populate_row now f) h)
    · rw [hstep, if_neg he]
      exact ih _ h

theorem dlookup_foldl_video (objs : List S3Obj)
    (acc : List (String × VideoEntry) × List (String × PendingEntry)) (w : String) :
    dlookup (objs.foldl index_step acc).1 w =
      match objs.reverse.find? (is_video_obj w) with
      | some o => some (mk_video_entry w o)
      | none => dlookup acc.1 w := by
  induction objs generalizing acc with
  | nil => simp
  | cons o rest ih =>
    simp only [List.foldl_cons, List.reverse_cons, List.find?_append]
    rw [ih]
    cases hfind : rest.reverse.find? (is_video_obj w) with
    | some o2 => simp
    | none =>
      simp only [Option.none_or]
      rw [dlookup_index_step_video]
      cases hp : is_video_obj w o <;> simp [List.find?, hp]

/-! ## Concrete inputs used by witnesses and counterexamples -/

def objPending : S3Obj :=
  { key := "pending/a.mp4", body := [1, 2], lastModified := "2024-01-01 00:00", size := 2048 }

def objLetterA : S3Obj :=
  { key := "a.mp4", body := [], lastModified := "2024-01-02 10:00", size := 100 }

def objHello : S3Obj :=
  { key := "hello_world.mp4", body := [7], lastModified := "2024-01-03 08:30", size := 4096 }

def entryHello : VideoEntry :=
  { word := "hello", key := "hello.mp4", url := get_public_url "hello.mp4", type := "word" }

def pushFileC : PushFile :=
  { parts := ["PSL", "hello.mp4"], upload_ok := true, duration := some 2,
    resolution := some "640x480" }

def localFileC : LocalVideoFile :=
  { language := "PSL", filename := "hello.mp4", duration := some 2,
    resolution := some "640x480" }

/-! ## The claims -/

/-- C1: the translate endpoint's returned videos list is built per tokenised
input word, in order: a word whose lowercased form is a key of the approved
index contributes its metadata entry; otherwise each character of the word, in
order, that is a key of the approved index contributes a copy of that
character's entry with its `type` field set to `"letter"` and its `word` field
set to the uppercased character, and characters absent from the index
contribute nothing. -/
theorem translate_videos_per_word (video_index : List (String × VideoEntry))
    (keywords : List String) :
    translate_videos video_index keywords
      = (keywords.map (per_word_videos video_index)).flatten := by
  unfold translate_videos
  rw [word_step_foldl, List.nil_append, List.map_map]
  rfl

example :
    translate_videos [("hello", entryHello), ("a", mk_video_entry "a" objLetterA)]
        ["Hello", "ma"]
      = [entryHello,
         { mk_video_entry "a" objLetterA with type := "letter", word := "A" }] := by
  decide

/-- C2: after a successful refresh over listing `objs`, the pending index
contains exactly the listed keys ending in `".mp4"` and starting with
`"pending/"`, keyed by full object key; the approved index contains exactly
one entry per distinct nonempty derived word of a listed non-pending `".mp4"`
key, keyed by that word; keys not ending in `".mp4"` appear in neither; and no
pre-refresh entry survives, the result being a function of the listing only. -/
theorem index_s3_files_spec (objs : List S3Obj) (k w : String) :
    ((dlookup (index_s3_files objs).2 k).isSome ↔
      ∃ o ∈ objs, o.key = k ∧ ends_with k ".mp4" = true ∧
        starts_with k "pending/" = true)
    ∧ (∀ e, dlookup (index_s3_files objs).2 k = some e → e.key = k)
    ∧ ((dlookup (index_s3_files objs).1 w).isSome ↔
      (w ≠ "" ∧ ∃ o ∈ objs, ends_with o.key ".mp4" = true ∧
        starts_with o.key "pending/" = false ∧ derived_word o.key = w))
    ∧ (∀ e, dlookup (index_s3_files objs).1 w = some e → e.word = w)
    ∧ (∀ old_v old_p, refresh_indices (Except.ok objs) old_v old_p
        = index_s3_files objs) := by
  have hp : dlookup (index_s3_files objs).2 k =
      match objs.reverse.find? (is_pending_obj k) with
      | some o => some (mk_pending_entry o)
      | none => none :=
    dlookup_foldl_pending objs ([], []) k
  have hv : dlookup (index_s3_files objs).1 w =
      match objs.reverse.find? (is_video_obj w) with
      | some o => some (mk_video_entry w o)
      | none => none :=
    dlookup_foldl_video objs ([], []) w
  refine ⟨?_, ?_, ?_, ?_, fun _ _ => rfl⟩
  · rw [hp]
    cases hfind : objs.reverse.find? (is_pending_obj k) with
    | some o =>
      simp only [Option.isSome_some, true_iff]
      have hmem := List.mem_reverse.mp (List.mem_of_find?_eq_some hfind)
      have hpred := List.find?_some hfind
      unfold is_pending_obj at hpred
      rw [Bool.and_eq_true, Bool.and_eq_true, beq_iff_eq] at hpred
      obtain ⟨⟨hkey, hend⟩, hstart⟩ := hpred
      subst hkey
      exact ⟨o, hmem, rfl, hend, hstart⟩
    | none =>
      simp only [Option.isSome_none, Bool.false_eq_true, false_iff]
      rintro ⟨o, ho, hkey, hend, hstart⟩
      have hno := List.find?_eq_none.mp hfind o (List.mem_reverse.mpr ho)
      apply hno
      unfold is_pending_obj
      rw [hkey]
      simp [hend, hstart]
  · intro e he
    rw [hp] at he
    cases hfind : objs.reverse.find? (is_pending_obj k) with
    | none => rw [hfind] at he; exact absurd he (by simp)
    | some o =>
      rw [hfind] at he
      simp only [Option.some.injEq] at he
      have hpred := List.find?_some hfind
      unfold is_pending_obj at hpred
      rw [Bool.and_eq_true, Bool.and_eq_true, beq_iff_eq] at hpred
      rw [← he]
      exact hpred.1.1
  · rw [hv]
    cases hfind : objs.reverse.find? (is_video_obj w) with
    | some o =>
      simp only [Option.isSome_some, true_iff]
      have hmem := List.mem_reverse.mp (List.mem_of_find?_eq_some hfind)
      have hpred := List.find?_some hfind
      unfold is_video_obj at hpred
      rw [Bool.and_eq_true, Bool.and_eq_true, Bool.and_eq_true,
        Bool.not_eq_true' , Bool.not_eq_true' , beq_iff_eq] at hpred
      obtain ⟨⟨⟨hend, hstart⟩, hne⟩, hdw⟩ := hpred
      refine ⟨?_, o, hmem, hend, hstart, hdw⟩
      rw [← hdw]
      exact fun hc => by rw [hc] at hne; simp at hne
    | none =>
      simp only [Option.isSome_none, Bool.false_eq_true, false_iff]
      rintro ⟨hw, o, ho, hend, hstart, hdw⟩
      have hno := List.find?_eq_none.mp hfind o (List.mem_reverse.mpr ho)
      apply hno
      unfold is_video_obj
      rw [hdw]
      simp [hend, hstart, hw]
  · intro e he
    rw [hv] at he
    cases hfind : objs.reverse.find? (is_video_obj w) with
    | none => rw [hfind] at he; exact absurd he (by simp)
    | some o =>
      rw [hfind] at he
      simp only [Option.some.injEq] at he
      rw [← he]
      rfl

theorem index_s3_files_spec_witness :
    (mk_pending_entry objPending).key = "pending/a.mp4"
    ∧ (mk_video_entry "hello world" objHello).word = "hello world" :=
  ⟨(index_s3_files_spec [objPending] "pending/a.mp4" "x").2.1
      (mk_pending_entry objPending) (by decide),
   (index_s3_files_spec [objHello] "k" "hello world").2.2.2.1
      (mk_video_entry "hello world" objHello) (by decide)⟩

/-- C3: for an authenticated moderation request on a stored key: `approve`
copies the object to a key equal to the final `/`-separated segment of the
key and then deletes the key; `reject` only deletes the key; in both cases
both in-memory indices are then rebuilt from the store listing, and the
handler redirects back to the admin panel. -/
theorem admin_action_spec (st : ServerState) (key : String) (o : S3Obj)
    (h : s3_lookup st.store key = some o) :
    (∀ k2, s3_lookup (admin_action st true true key "approve").1.store k2 =
        if k2 = key then none
        else if k2 = last_segment key then some { o with key := last_segment key }
        else s3_lookup st.store k2)
    ∧ (admin_action st true true key "approve").1.video_index
        = (index_s3_files (admin_action st true true key "approve").1.store).1
    ∧ (admin_action st true true key "approve").1.pending_index
        = (index_s3_files (admin_action st true true key "approve").1.store).2
    ∧ (admin_action st true true key "approve").2 = ActionResult.redirectAdmin
    ∧ (∀ k2, s3_lookup (admin_action st true true key "reject").1.store k2 =
        if k2 = key then none else s3_lookup st.store k2)
    ∧ (admin_action st true true key "reject").1.video_index
        = (index_s3_files (admin_action st true true key "reject").1.store).1
    ∧ (admin_action st true true key "reject").1.pending_index
        = (index_s3_files (admin_action st true true key "reject").1.store).2
    ∧ (admin_action st true true key "reject").2 = ActionResult.redirectAdmin := by
  have hap : admin_action st true true key "approve"
      = (reindex { st with store := s3_delete_object (s3_delete_object st.store (last_segment key) ++ [{ o with key := last_segment key }]) key },
         ActionResult.redirectAdmin) := by
    unfold admin_action
    simp [s3_copy_object, h]
  have hre : admin_action st true true key "reject"
      = (reindex { st with store := s3_delete_object st.store key },
         ActionResult.redirectAdmin) := by
    unfold admin_action
    simp
  rw [hap, hre]
  refine ⟨?_, rfl, rfl, rfl, ?_, rfl, rfl, rfl⟩
  · intro k2
    show s3_lookup (s3_delete_object _ key) k2 = _
    rw [s3_lookup_delete]
    by_cases h1 : k2 = key
    · rw [if_pos h1, if_pos h1]
    · rw [if_neg h1, if_neg h1]
      rw [s3_lookup_append, s3_lookup_delete]
      by_cases h2 : k2 = last_segment key
      · rw [if_pos h2, if_pos h2]
        simp [h2]
      · rw [if_neg h2, if_neg h2]
        cases hs : s3_lookup st.store k2
        · rw [if_neg (fun hh => h2 hh.symm)]
        · rfl
  · intro k2
    show s3_lookup (s3_delete_object st.store key) k2 = _
    rw [s3_lookup_delete]

theorem admin_action_spec_witness :
    s3_lookup
        (admin_action ⟨[objPending], [], []⟩ true true "pending/a.mp4" "approve").1.store
        "a.mp4"
      = some { objPending with key := "a.mp4" } := by
  have h := (admin_action_spec ⟨[objPending], [], []⟩ "pending/a.mp4" objPending
    (by decide)).1 "a.mp4"
  rw [h]
  decide

/-- C4 counterexample: the key `"a.mp4"` is indexed with clip type `"letter"`
although its filename `"a.mp4"` has length 5, not 1: the classification is by
the length of the derived word, not of the filename. -/
theorem clip_type_filename_counterexample :
    (dlookup (index_s3_files [objLetterA]).1 "a").map VideoEntry.type = some "letter"
    ∧ ¬((last_segment "a.mp4").length = 1) := by decide

/-- C4 (amended): in the S3 indexer, the SQLite populator and the dataset-push
script alike, a record's clip type is `"letter"` exactly when the derived word
that script computes from the filename has length at most 1 (in the indexer the
indexed word is additionally nonempty, so exactly length 1), and `"word"`
otherwise. -/
theorem clip_type_word_length (objs : List S3Obj) (w : String) (e : VideoEntry)
    (now : String) (f : LocalVideoFile) (p : PushFile) :
    (dlookup (index_s3_files objs).1 w = some e →
      (e.type = "letter" ↔ w.length ≤ 1))
    ∧ ((populate_row now f).type = "letter" ↔ (pop_word f.filename).length ≤ 1)
    ∧ ((mk_push_doc p).type = "letter" ↔ (push_word p.parts).length ≤ 1) := by
  have htype : ∀ s : String,
      ((if 1 < s.length then "word" else "letter") = "letter" ↔ s.length ≤ 1) := by
    intro s
    by_cases hl : 1 < s.length
    · rw [if_pos hl]
      constructor
      · intro hc
        exact absurd hc (by decide)
      · omega
    · rw [if_neg hl]
      constructor
      · intro
        omega
      · intro
        rfl
  refine ⟨?_, htype (pop_word f.filename), htype (push_word p.parts)⟩
  intro he
  have hv : dlookup (index_s3_files objs).1 w =
      match objs.reverse.find? (is_video_obj w) with
      | some o => some (mk_video_entry w o)
      | none => none :=
    dlookup_foldl_video objs ([], []) w
  rw [hv] at he
  cases hfind : objs.reverse.find? (is_video_obj w) with
  | none =>
    rw [hfind] at he
    exact absurd he (by simp)
  | some o =>
    rw [hfind] at he
    simp only [Option.some.injEq] at he
    rw [← he]
    exact htype w

theorem clip_type_word_length_witness :
    (mk_video_entry "a" objLetterA).type = "letter" ↔ ("a" : String).length ≤ 1 :=
  (clip_type_word_length [objLetterA] "a" (mk_video_entry "a" objLetterA)
    "2024-01-01" localFileC pushFileC).1 (by decide)

/-- C5: both writers preserve the invariant that `(word, language)` identifies
at most one record: the dataset-push's bulk write of upsert-`ReplaceOne`
operations keeps the document collection key-unique, and the populator's
`INSERT OR REPLACE` keeps the relational table key-unique (replacing, not
duplicating, the row with the same key). -/
theorem word_language_key_unique (coll : List MongoDoc) (files : List PushFile)
    (t : List SqlRow) (now : String) (lfiles : List LocalVideoFile) :
    (mongo_key_unique coll → mongo_key_unique (push_dataset_mongo coll files))
    ∧ (sql_key_unique t → sql_key_unique (populate_database t now lfiles)) :=
  ⟨fun h => bulk_write_unique (push_ops coll files) coll h,
   fun h => populate_database_unique lfiles now t h⟩

theorem word_language_key_unique_witness :
    mongo_key_unique (push_dataset_mongo [] [pushFileC])
    ∧ sql_key_unique (populate_database [] "2024-01-01" [localFileC]) :=
  ⟨(word_language_key_unique [] [pushFileC] [] "2024-01-01" []).1 List.Pairwise.nil,
   (word_language_key_unique [] [] [] "2024-01-01" [localFileC]).2 List.Pairwise.nil⟩

/-- C6 counterexample: the MongoDB document the dataset push writes has no
update-timestamp field (the SQLite insert does), so it is not the case that
every persistent video record carries all seven fields, nor that each record
is written redundantly to both stores. -/
theorem record_fields_counterexample :
    "updated_at" ∉ (mongo_doc_kv (mk_push_doc pushFileC)).map Prod.fst
    ∧ "updated_at" ∈ (sql_insert_kv (populate_row "2024-01-01" localFileC)).map Prod.fst := by
  decide

/-- C6 (amended): every row written by the SQLite populator carries the seven
spec fields (word, language, storage path, clip type, duration, resolution,
update timestamp); every document written by the dataset push carries exactly
the first six of them and no update timestamp; the two stores are written by
the two separate scripts, not redundantly by either one. -/
theorem record_fields_amended (r : SqlRow) (d : MongoDoc) :
    (sql_insert_kv r).map Prod.fst = spec_record_fields
    ∧ (mongo_doc_kv d).map Prod.fst = spec_record_fields.take 6
    ∧ "updated_at" ∉ (mongo_doc_kv d).map Prod.fst := by
  refine ⟨rfl, rfl, ?_⟩
  show "updated_at" ∉
    (["word", "language", "file_path", "type", "duration", "resolution"] : List String)
  decide

/-- C7: `connect_mongo` makes at most 3 connection attempts, waits a fixed 3
seconds between consecutive failed attempts, returns `True` immediately on the
first success (and immediately, with no attempt, when a collection is already
held), and returns `False` after the third failure. -/
theorem connect_mongo_spec (s : Nat → Bool) :
    connect_mongo true s = (true, 0, 0)
    ∧ (connect_mongo false s).2.1 ≤ 3
    ∧ ((connect_mongo false s).1 = true ↔ (s 1 = true ∨ s 2 = true ∨ s 3 = true))
    ∧ (s 1 = true → connect_mongo false s = (true, 1, 0))
    ∧ (s 1 = false → s 2 = true → connect_mongo false s = (true, 2, 3))
    ∧ (s 1 = false → s 2 = false → s 3 = true → connect_mongo false s = (true, 3, 6))
    ∧ (s 1 = false → s 2 = false → s 3 = false → connect_mongo false s = (false, 3, 6)) := by
  cases h1 : s 1 <;> cases h2 : s 2 <;> cases h3 : s 3 <;>
    simp [connect_mongo, mongo_attempts, h1, h2, h3]

theorem connect_mongo_spec_witness :
    connect_mongo false (fun n => n == 2) = (true, 2, 3) :=
  (connect_mongo_spec (fun n => n == 2)).2.2.2.2.1 rfl rfl

/-- C8: an upload name whose normalised form (stripped, lowercased, spaces to
underscores) collides with the approved index (underscores read as spaces) or
with a pending filename makes the mobile upload endpoint fail with HTTP 400,
with no object-store write and no change to either index. -/
theorem mobile_upload_duplicate_rejected (st : ServerState) (name : String)
    (content : List Nat) (now : String)
    (h : (dlookup st.video_index
            (py_replace_char '_' ' '
              (py_replace_char ' ' '_' (py_lower (py_strip name))))).isSome = true
       ∨ st.pending_index.any (fun p => ends_with p.1
            ("/" ++ py_replace_char ' ' '_' (py_lower (py_strip name)) ++ ".mp4")) = true) :
    (mobile_upload st true name content now).1 = st
    ∧ ∃ d, (mobile_upload st true name content now).2 = ActionResult.httpError 400 d := by
  have hdup : (check_duplicate st.video_index st.pending_index name).isSome = true := by
    simp only [check_duplicate]
    by_cases h0 : (dlookup st.video_index
        (py_replace_char '_' ' '
          (py_replace_char ' ' '_' (py_lower (py_strip name))))).isSome = true
    · rw [if_pos h0]
      rfl
    · rcases h with h | h
      · exact absurd h h0
      · rw [if_neg h0, if_pos h]
        rfl
  cases hc : check_duplicate st.video_index st.pending_index name with
  | none =>
    rw [hc] at hdup
    exact absurd hdup (by simp)
  | some msg =>
    unfold mobile_upload
    rw [hc]
    exact ⟨rfl, msg, rfl⟩

theorem mobile_upload_duplicate_rejected_witness :
    (mobile_upload ⟨[], [("hello", entryHello)], []⟩ true "Hello" [1] "2024-01-01").1
      = ⟨[], [("hello", entryHello)], []⟩ :=
  (mobile_upload_duplicate_rejected ⟨[], [("hello", entryHello)], []⟩ "Hello" [1]
    "2024-01-01" (Or.inl (by decide))).1

/-- C9: the index refresh is atomic with respect to failure: when listing or
processing raises, both indices keep exactly their previous contents; and on
success the result does not depend on the previous index contents at all. -/
theorem refresh_failure_keeps_indices (e : String)
    (old_video : List (String × VideoEntry))
    (old_pending : List (String × PendingEntry)) :
    refresh_indices (Except.error e) old_video old_pending = (old_video, old_pending)
    ∧ (∀ objs old_video2 old_pending2,
        refresh_indices (Except.ok objs) old_video2 old_pending2
          = refresh_indices (Except.ok objs) old_video old_pending) :=
  ⟨rfl, fun _ _ _ => rfl⟩

/-- C10: the upload-name normalisation (strip, lowercase, spaces to
underscores, then keep only alphanumerics and underscores) is the same
function in the admin upload, admin rename and mobile upload handlers, and it
is idempotent: applying it twice equals applying it once. -/
theorem clean_name_idempotent (s : String) :
    admin_upload_clean_name s = sanitize_name s
    ∧ admin_edit_clean_name s = sanitize_name s
    ∧ sanitize_name (sanitize_name s) = sanitize_name s :=
  ⟨rfl, rfl, sanitize_fixed_of_good (sanitize_name s) (sanitize_chars_good s)⟩
